import Mathlib

set_option maxRecDepth 40000

/-!
Verification of the offline enrichment pipeline of the Heritage Atlas
repository (`scripts/build-geojson.mjs`).

The JavaScript source is shallowly embedded below.  Numbers are modelled as
exact rationals (`ℚ`); JavaScript strings are Lean `String`s (the regular
expressions of the source are compiled by hand into character-list scanners
that follow the engine's left-to-right, first-match semantics).  The
Web-Mercator projection `projectLonLatTo3857` uses transcendental
floating-point operations (`Math.tan`, `Math.log`); every claim about the
row loop is independent of the projected values, so the pipeline embedding
takes the projection as an explicit function parameter `proj` and the
theorems quantify over it.
-/

/-- JavaScript whitespace (the ASCII part of `\s`, which is all the data
ever contains): space, tab, line feed, carriage return, vertical tab and
form feed. -/
def jsIsSpace (c : Char) : Bool :=
  c = ' ' || c = '\t' || c = '\n' || c = '\r' || c.toNat = 11 || c.toNat = 12

/-- `String.prototype.trim`, on character lists. -/
def jsTrim (s : List Char) : List Char :=
  ((s.dropWhile jsIsSpace).reverse.dropWhile jsIsSpace).reverse

/-- `asText` from the source: `value == null ? '' : String(value).trim()`.
Cells are already strings in the embedding, so only the trim remains. -/
def asText (s : String) : String :=
  String.mk (jsTrim s.toList)

/-- JavaScript `a || b` on strings (empty string is falsy). -/
def jsOr (a b : String) : String :=
  if a = "" then b else a

/-- JavaScript `Math.abs`. -/
def jsAbs (q : ℚ) : ℚ :=
  if q < 0 then -q else q

theorem jsAbs_eq_abs (q : ℚ) : jsAbs q = |q| := by
  unfold jsAbs
  split
  · exact (abs_of_neg (by assumption)).symm
  · exact (abs_of_nonneg (not_lt.mp (by assumption))).symm

/-- The `axis` argument of `parseCoord` (`'lon'` / `'lat'` in the source). -/
inductive GpsSlot where
  | lon
  | lat
deriving DecidableEq

/-- The value of a decimal digit character. -/
def digitVal (c : Char) : ℕ :=
  if c = '0' then 0 else if c = '1' then 1 else if c = '2' then 2
  else if c = '3' then 3 else if c = '4' then 4 else if c = '5' then 5
  else if c = '6' then 6 else if c = '7' then 7 else if c = '8' then 8 else 9

/-- Decimal digits to a natural number. -/
def digitsToNat (ds : List Char) : ℕ :=
  ds.foldl (fun n c => 10 * n + digitVal c) 0

/-- Scan for the first match position of `-?\d+`: the first digit, possibly
preceded directly by a minus sign.  Returns the sign and the suffix starting
at the first digit. -/
def findNumberStart : List Char → Option (Bool × List Char)
  | [] => none
  | c :: cs =>
    if c.isDigit then some (false, c :: cs)
    else if c = '-' then
      match cs with
      | d :: _ => if d.isDigit then some (true, cs) else findNumberStart cs
      | [] => none
    else findNumberStart cs

/-- Continue the regex `(-?\d+(?:\.\d+)?)\s*°?\s*([NSEW])?` after the first
digit: greedy digits, an optional fraction (taken only when a digit follows
the dot), optional spacing, an optional degree sign, optional spacing, and
an optional hemisphere letter.  Returns the parsed number (exact) and the
upper-cased hemisphere letter, if any. -/
def parseNumberAndHemi (negative : Bool) (l : List Char) : ℚ × Option Char :=
  let intDs := l.takeWhile Char.isDigit
  let rest1 := l.dropWhile Char.isDigit
  let fracAndRest : List Char × List Char :=
    match rest1 with
    | '.' :: r =>
      let f := r.takeWhile Char.isDigit
      if f = [] then ([], rest1) else (f, r.dropWhile Char.isDigit)
    | _ => ([], rest1)
  let fracDs := fracAndRest.1
  let mag : ℚ := (digitsToNat intDs : ℚ) + (digitsToNat fracDs : ℚ) / 10 ^ fracDs.length
  let num : ℚ := if negative then -mag else mag
  let rest3 := fracAndRest.2.dropWhile jsIsSpace
  let rest4 : List Char := match rest3 with | '°' :: r => r | _ => rest3
  let rest5 := rest4.dropWhile jsIsSpace
  let hemi : Option Char :=
    match rest5 with
    | c :: _ =>
      if c = 'N' || c = 'S' || c = 'E' || c = 'W' ||
         c = 'n' || c = 's' || c = 'e' || c = 'w' then some c.toUpper else none
    | [] => none
  (num, hemi)

/-- `parseCoord(value, axis)` from the source: extract the first signed
decimal number and optional hemisphere letter; a hemisphere letter forces
the sign (S/W negative, N/E positive) overriding the numeral's sign; a bare
number in the latitude slot is forced negative. -/
def parseCoord (value : String) (slot : GpsSlot) : Option ℚ :=
  if value = "" then none
  else
    let text := jsTrim value.toList
    match findNumberStart text with
    | none => none
    | some (neg, rest) =>
      let nh := parseNumberAndHemi neg rest
      match nh.2 with
      | some h => some (if h = 'S' || h = 'W' then -(jsAbs nh.1) else jsAbs nh.1)
      | none => if slot = GpsSlot.lat then some (-(jsAbs nh.1)) else some nh.1

/-- The comma-split, trimmed, non-empty parts of a GPS string
(`split(',').map(trim).filter(Boolean)`). -/
def gpsParts (s : String) : List (List Char) :=
  ((s.toList.splitOn ',').map jsTrim).filter (fun p => p ≠ [])

/-- `parseGps(gpsValue)` from the source: parse the first part in the `lon`
slot and the second in the `lat` slot, swap the two when the first
magnitude is ≤ 90 while the second exceeds 90, and reject out-of-range
results. -/
def parseGps (gpsValue : String) : Option (ℚ × ℚ) :=
  if gpsValue = "" then none
  else
    match gpsParts gpsValue with
    | p0 :: p1 :: _ =>
      match parseCoord (String.mk p0) GpsSlot.lon, parseCoord (String.mk p1) GpsSlot.lat with
      | some first, some second =>
        let lonlat : ℚ × ℚ :=
          if jsAbs first ≤ 90 ∧ 90 < jsAbs second then (second, first)
          else (first, second)
        if 90 < jsAbs lonlat.2 ∨ 180 < jsAbs lonlat.1 then none else some lonlat
      | _, _ => none
    | _ => none

theorem parseGps_hemi_ex1 : parseGps "18.42 E, 33.91 S" = some (18.42, -33.91) := by
  norm_num +decide [parseGps, gpsParts, parseCoord, jsTrim, jsIsSpace, jsAbs,
    findNumberStart, parseNumberAndHemi, digitsToNat, digitVal,
    List.splitOn, List.splitOnP, List.splitOnP.go]

theorem parseGps_hemi_ex2 : parseGps "33.91 S, 18.42 E" = some (-33.91, 18.42) := by
  norm_num +decide [parseGps, gpsParts, parseCoord, jsTrim, jsIsSpace, jsAbs,
    findNumberStart, parseNumberAndHemi, digitsToNat, digitVal,
    List.splitOn, List.splitOnP, List.splitOnP.go]

theorem parseGps_noswap_ex : parseGps "-33.9189, 18.4233" = some (-33.9189, -18.4233) := by
  norm_num +decide [parseGps, gpsParts, parseCoord, jsTrim, jsIsSpace, jsAbs,
    findNumberStart, parseNumberAndHemi, digitsToNat, digitVal,
    List.splitOn, List.splitOnP, List.splitOnP.go]

theorem parseGps_bad_ex : parseGps "x" = none := by decide

theorem parseGps_simple_ex : parseGps "1, 2" = some (1, -2) := by
  norm_num +decide [parseGps, gpsParts, parseCoord, jsTrim, jsIsSpace, jsAbs,
    findNumberStart, parseNumberAndHemi, digitsToNat, digitVal,
    List.splitOn, List.splitOnP, List.splitOnP.go]

/-! ## Planar geometry (ray casting, bounding boxes) -/

/-- A planar point (the source's `[x, y]` pairs). -/
abbrev Pt := ℚ × ℚ

/-- A polygon ring: an ordered list of points. -/
abbrev GeoRing := List Pt

/-- A polygon: ring 0 is the exterior boundary, rings ≥ 1 are holes. -/
abbrev GeoPolygon := List GeoRing

/-- `Number.EPSILON` (2⁻⁵²), the denominator substitute for horizontal
edges. -/
def EPSILON : ℚ := 1 / 2 ^ 52

/-- The ray-casting denominator `(yj - yi) || Number.EPSILON`. -/
def edgeDenom (yi yj : ℚ) : ℚ :=
  if yj - yi = 0 then EPSILON else yj - yi

/-- One edge test of `ringContainsPoint`:
`yi > y !== yj > y && x < ((xj - xi) * (y - yi)) / ((yj - yi) || EPS) + xi`. -/
def edgeCrosses (p vi vj : Pt) : Bool :=
  (decide (p.2 < vi.2) != decide (p.2 < vj.2)) &&
    decide (p.1 < (vj.1 - vi.1) * (p.2 - vi.2) / edgeDenom vi.2 vj.2 + vi.1)

/-- The loop body of `ringContainsPoint`: flip `inside` when the edge
crosses the ray. -/
def ringStep (p : Pt) (inside : Bool) (e : Pt × Pt) : Bool :=
  if edgeCrosses p e.1 e.2 then !inside else inside

/-- The edges `(ring[i], ring[j])` visited by the loop
`for (let i = 0, j = ring.length - 1; i < ring.length; j = i++)`:
`(ring[0], ring[n-1]), (ring[1], ring[0]), …, (ring[n-1], ring[n-2])`. -/
def ringEdges (ring : GeoRing) : List (Pt × Pt) :=
  match ring with
  | [] => []
  | v :: vs => (v :: vs).zip ((v :: vs).getLastD v :: (v :: vs).dropLast)

/-- `ringContainsPoint(ring, point)` from the source (ray-casting parity). -/
def ringContainsPoint (ring : GeoRing) (p : Pt) : Bool :=
  (ringEdges ring).foldl (ringStep p) false

/-- `polygonContainsPoint(rings, point)` from the source: inside the
exterior ring and inside no hole ring. -/
def polygonContainsPoint (rings : GeoPolygon) (p : Pt) : Bool :=
  match rings with
  | [] => false
  | outer :: holes => ringContainsPoint outer p && holes.all (fun h => !ringContainsPoint h p)

/-- The containment loop of the orchestrator over `candidate.polygons`:
contained in at least one constituent polygon. -/
def candidateContains (polygons : List GeoPolygon) (p : Pt) : Bool :=
  polygons.any (fun poly => polygonContainsPoint poly p)

/-- A bounding box `[minX, minY, maxX, maxY]`.  The source initializes the
minima to `Infinity` and the maxima to `-Infinity`; `⊤ : WithTop ℚ` and
`⊥ : WithBot ℚ` model those sentinels, and for finite data the comparisons
agree with the JavaScript ones. -/
structure BBox where
  minX : WithTop ℚ
  minY : WithTop ℚ
  maxX : WithBot ℚ
  maxY : WithBot ℚ
deriving DecidableEq

/-- The body of the `computeBBox` point loop
(`if (x < minX) minX = x;` and so on). -/
def bboxStep (b : BBox) (pt : Pt) : BBox :=
  { minX := if (pt.1 : WithTop ℚ) < b.minX then (pt.1 : WithTop ℚ) else b.minX
    minY := if (pt.2 : WithTop ℚ) < b.minY then (pt.2 : WithTop ℚ) else b.minY
    maxX := if b.maxX < (pt.1 : WithBot ℚ) then (pt.1 : WithBot ℚ) else b.maxX
    maxY := if b.maxY < (pt.2 : WithBot ℚ) then (pt.2 : WithBot ℚ) else b.maxY }

/-- `computeBBox(polygons)` from the source: fold over every point of every
ring of every polygon. -/
def computeBBox (polygons : List GeoPolygon) : BBox :=
  (polygons.flatten.flatten).foldl bboxStep ⟨⊤, ⊤, ⊥, ⊥⟩

/-- `pointInBBox(point, bbox)` from the source:
`x >= bbox[0] && x <= bbox[2] && y >= bbox[1] && y <= bbox[3]`. -/
def pointInBBox (p : Pt) (b : BBox) : Bool :=
  decide (b.minX ≤ (p.1 : WithTop ℚ)) && decide ((p.1 : WithBot ℚ) ≤ b.maxX) &&
    decide (b.minY ≤ (p.2 : WithTop ℚ)) && decide ((p.2 : WithBot ℚ) ≤ b.maxY)

def squareRing : GeoRing := [(0, 0), (4, 0), (4, 4), (0, 4)]

example : ringContainsPoint squareRing (1, 1) = true := by
  norm_num +decide [ringContainsPoint, ringEdges, squareRing, ringStep,
    edgeCrosses, edgeDenom, EPSILON]
example : polygonContainsPoint [squareRing] (1, 1) = true := by
  norm_num +decide [polygonContainsPoint, ringContainsPoint, ringEdges,
    squareRing, ringStep, edgeCrosses, edgeDenom, EPSILON]
example : pointInBBox (1, 1) (computeBBox [[squareRing]]) = true := by
  norm_num +decide [pointInBBox, computeBBox, bboxStep, squareRing]

/-! ## Address normalization and tokenization -/

/-- JavaScript word characters (`\w` = `[A-Za-z0-9_]`), as used by the `\b`
boundaries of the replacement patterns. -/
def isWordChar (c : Char) : Bool :=
  c.isAlphanum || c = '_'

/-- A `\b` word boundary holds before the (word-character) pattern when the
preceding character is absent or not a word character. -/
def boundaryBefore (prev : Option Char) : Bool :=
  match prev with
  | none => true
  | some c => !isWordChar c

/-- A `\b` word boundary holds after the (word-character) pattern when the
following character is absent or not a word character. -/
def boundaryAfter (rest : List Char) : Bool :=
  match rest with
  | [] => true
  | c :: _ => !isWordChar c

/-- Global whole-word replacement (`.replace(/\bw\b/g, r)` for a pattern of
word characters): scan left to right, replacing each non-overlapping
boundary-delimited occurrence and continuing after it.  `fuel` only bounds
the scan (the caller passes the string length; each step consumes at least
one character). -/
def replaceWordGo (w r : List Char) (fuel : ℕ) (prev : Option Char) (s : List Char) : List Char :=
  match fuel, s with
  | 0, rest => rest
  | _ + 1, [] => []
  | fuel + 1, c :: cs =>
    if w ≠ [] ∧ w.isPrefixOf (c :: cs) ∧ boundaryBefore prev = true ∧
        boundaryAfter ((c :: cs).drop w.length) = true then
      r ++ replaceWordGo w r fuel (some (w.getLastD c)) ((c :: cs).drop w.length)
    else
      c :: replaceWordGo w r fuel (some c) cs

def replaceWord (w r s : List Char) : List Char :=
  replaceWordGo w r s.length none s

/-- Collapse every whitespace run to a single space
(`.replace(/\s+/g, ' ')`). -/
def collapseGo : Bool → List Char → List Char
  | _, [] => []
  | prevSpace, c :: cs =>
    if jsIsSpace c then
      if prevSpace then collapseGo true cs else ' ' :: collapseGo true cs
    else c :: collapseGo false cs

def collapseSpaces (s : List Char) : List Char :=
  collapseGo false s

/-- `normalizeAddress(value)` from the source: lower-case, commas to
spaces, `&` to ` and `, whole-word `st`/`rd`/`ave` expansion, whitespace
collapse, trim. -/
def normalizeAddress (value : String) : String :=
  if value = "" then ""
  else
    let step1 := value.toList.map Char.toLower
    let step2 := step1.map (fun c => if c = ',' then ' ' else c)
    let step3 := step2.flatMap (fun c => if c = '&' then (" and ").toList else [c])
    let step4 := replaceWord ("st").toList ("street").toList step3
    let step5 := replaceWord ("rd").toList ("road").toList step4
    let step6 := replaceWord ("ave").toList ("avenue").toList step5
    String.mk (jsTrim (collapseSpaces step6))

/-- Characters kept by the tokenizer split `[^a-z0-9]+`. -/
def isTokenChar (c : Char) : Bool :=
  (decide ('a' ≤ c) && decide (c ≤ 'z')) || c.isDigit

/-- Split on runs of non-token characters, keeping non-empty tokens
(`split(/[^a-z0-9]+/).filter(Boolean)`). -/
def splitTokensGo (cur : List Char) : List Char → List String
  | [] => if cur = [] then [] else [String.mk cur.reverse]
  | c :: cs =>
    if isTokenChar c then splitTokensGo (c :: cur) cs
    else if cur = [] then splitTokensGo [] cs
    else String.mk cur.reverse :: splitTokensGo [] cs

/-- `tokens(value)` from the source. -/
def tokens (value : String) : List String :=
  splitTokensGo [] (normalizeAddress value).toList

/-- Scan for the first match of `\b\d{1,5}\b`: the first maximal digit run
delimited by word boundaries on both sides whose length is at most 5
(a longer run never matches — every split point of it falls between two
word characters).  `fuel` only bounds the scan. -/
def houseNumGo (fuel : ℕ) (prev : Option Char) (s : List Char) : String :=
  match fuel, s with
  | 0, _ => ""
  | _ + 1, [] => ""
  | fuel + 1, c :: cs =>
    if c.isDigit ∧ boundaryBefore prev = true then
      let run := c :: cs.takeWhile Char.isDigit
      let rest := cs.dropWhile Char.isDigit
      if run.length ≤ 5 ∧ boundaryAfter rest = true then String.mk run
      else houseNumGo fuel (some (run.getLastD c)) rest
    else houseNumGo fuel (some c) cs

/-- `extractHouseNumber(value)` from the source:
`normalizeAddress(value).match(/\b\d{1,5}\b/)`, or `''` when absent. -/
def extractHouseNumber (value : String) : String :=
  houseNumGo (normalizeAddress value).toList.length none (normalizeAddress value).toList

example : normalizeAddress "121 Long St" = "121 long street" := by decide
example : normalizeAddress "12 Main Rd & 3 Ave,  X" = "12 main road and 3 avenue x" := by decide
example : tokens "121 Long St" = ["121", "long", "street"] := by decide
example : extractHouseNumber "121 Long St" = "121" := by decide
example : extractHouseNumber "123456 Long St" = "" := by decide
example : normalizeAddress "street stop" = "street stop" := by decide

/-! ## Heritage candidates and fuzzy matching -/

/-- The heritage attribute bag copied opaquely from the inventory feature
into matched output rows (`candidate.properties` in the source); fields
are `normalize`d, hence `Option String`. -/
structure HeritageProps where
  heritageInventoryKey : Option String := none
  heritageStatus : Option String := none
  heritageSiteName : Option String := none
  heritageResourceCategory : Option String := none
  heritageTypePrimary : Option String := none
  heritageTypeSecondary : Option String := none
  heritageCityGrade : Option String := none
  heritageCouncilGrade : Option String := none
  heritageManagementGrade : Option String := none
  nhraStatus : Option String := none
  heritageStatement : Option String := none
  heritageAddress : Option String := none
  heritageParcelKey : Option String := none
deriving DecidableEq

/-- One entry of the CBD index built by `loadCBDIndex`. -/
structure Candidate where
  bbox : BBox
  polygons : List GeoPolygon
  addressNorm : String
  siteNameNorm : String
  properties : HeritageProps
deriving DecidableEq

/-- JavaScript `big.includes(small)`: `small` occurs contiguously in
`big`. -/
def jsIncludes (big small : List Char) : Bool :=
  if small.isPrefixOf big then true
  else
    match big with
    | [] => false
    | _ :: t => jsIncludes t small

/-- `matchScore(targetAddress, targetName, candidate)` from the source. -/
def matchScore (targetAddress targetName : String) (candidate : Candidate) : ℕ :=
  let addressA := normalizeAddress targetAddress
  let nameA := normalizeAddress targetName
  let addressB := candidate.addressNorm
  let nameB := candidate.siteNameNorm
  let numberA := extractHouseNumber addressA
  let numberB := extractHouseNumber addressB
  let score1 : ℕ := if numberA ≠ "" ∧ numberB ≠ "" ∧ numberA = numberB then 4 else 0
  let tokensA := (tokens addressA ++ tokens nameA).dedup
  let tokensB := tokens addressB ++ tokens nameB
  let overlap := (tokensA.filter (fun t => t ∈ tokensB)).length
  let score2 := score1 + overlap
  score2 +
    (if addressA ≠ "" ∧ addressB ≠ "" ∧
        (jsIncludes addressB.toList addressA.toList ∨ jsIncludes addressA.toList addressB.toList)
     then 4 else 0)

/-- The house-number signal of the fuzzy score (+4 when both sides have an
extracted house number and they are string-equal). -/
def houseNumberSignal (targetAddress : String) (candidate : Candidate) : ℕ :=
  let numberA := extractHouseNumber (normalizeAddress targetAddress)
  let numberB := extractHouseNumber candidate.addressNorm
  if numberA ≠ "" ∧ numberB ≠ "" ∧ numberA = numberB then 4 else 0

/-- The token-overlap signal of the fuzzy score (+1 per token shared by the
two sides' union-of-(address, name) token sets). -/
def tokenOverlapSignal (targetAddress targetName : String) (candidate : Candidate) : ℕ :=
  let tokensA := (tokens (normalizeAddress targetAddress) ++ tokens (normalizeAddress targetName)).dedup
  let tokensB := tokens candidate.addressNorm ++ tokens candidate.siteNameNorm
  (tokensA.filter (fun t => t ∈ tokensB)).length

/-- The substring signal of the fuzzy score (+4 when both normalized
addresses are non-empty and one contains the other). -/
def substringSignal (targetAddress : String) (candidate : Candidate) : ℕ :=
  let addressA := normalizeAddress targetAddress
  let addressB := candidate.addressNorm
  if addressA ≠ "" ∧ addressB ≠ "" ∧
      (jsIncludes addressB.toList addressA.toList ∨ jsIncludes addressA.toList addressB.toList)
  then 4 else 0

/-! ## The enrichment orchestrator (main row loop) -/

/-- The spatial scan of the row loop: the first candidate whose bounding
box contains the projected point and one of whose polygons contains it. -/
def findSpatial (cbdIndex : List Candidate) (pt : Pt) : Option Candidate :=
  cbdIndex.find? (fun c => pointInBBox pt c.bbox && candidateContains c.polygons pt)

/-- The fuzzy scan of the row loop: fold tracking the best candidate and
best score, starting from `(null, 0)` and updating on strictly greater
scores. -/
def bestFuzzy (cbdIndex : List Candidate) (sourceAddress sourceName : String) :
    Option Candidate × ℕ :=
  cbdIndex.foldl
    (fun acc c =>
      let score := matchScore sourceAddress sourceName c
      if acc.2 < score then (some c, score) else acc)
    (none, 0)

def ADDRESS_MATCH_THRESHOLD : ℕ := 8

def ADDRESS_MATCH_LOW_THRESHOLD : ℕ := 6

/-- The per-row matching stage: spatial containment first (method
`spatial-3857`, score 100, confidence `high`), then the fuzzy fallback at
its two thresholds; `none` when the row matches nothing.  Returns the
matched candidate together with the three match-provenance values. -/
def enrich (cbdIndex : List Candidate) (pt : Pt) (sourceAddress sourceName : String) :
    Option (Candidate × String × ℕ × String) :=
  match findSpatial cbdIndex pt with
  | some c => some (c, "spatial-3857", 100, "high")
  | none =>
    match bestFuzzy cbdIndex sourceAddress sourceName with
    | (some c, bestScore) =>
      if ADDRESS_MATCH_THRESHOLD ≤ bestScore then some (c, "address-fuzzy", bestScore, "medium")
      else if ADDRESS_MATCH_LOW_THRESHOLD ≤ bestScore then
        some (c, "address-fuzzy-low", bestScore, "low")
      else none
    | (none, _) => none

/-! ## Rows, features and the snapshot -/

/-- One spreadsheet row (`sheet_to_json` with `defval: ''` yields a string
per named column; blank cells are `""`).  Field names follow the column
headers used by the row loop. -/
structure Row where
  num : String := ""
  nameDesc : String := ""
  shortmarketStreet : String := ""
  erfNo : String := ""
  erfSize : String := ""
  estValue : String := ""
  cmaZoning : String := ""
  zoningCol : String := ""
  cmaUsage : String := ""
  cmaOwner : String := ""
  ownerCol : String := ""
  significanceCol : String := ""
  cmaGps : String := ""
  cmaMunicipalValue2023 : String := ""
  cmaRatesEst : String := ""
deriving DecidableEq

/-- One output GeoJSON feature: a point geometry plus the flat properties
bag.  The heritage attribute spread (`...heritageContext`) is modelled by
the `heritage : Option HeritageProps` field; the three match-provenance
fields and the boolean flag are as in the source. -/
structure Feature where
  coordinates : ℚ × ℚ
  id : String
  name : String
  address : String
  erfNo : String
  erfSize : String
  estValue : String
  zoning : String
  usage : String
  owner : String
  significance : String
  cmaGps : String
  cmaMunicipalValue2023 : String
  cmaRatesEstimate : String
  heritage : Option HeritageProps
  heritageMatchMethod : Option String
  heritageMatchScore : Option ℕ
  heritageMatchConfidence : Option String
  hasCBDHeritageMatch : Bool
deriving DecidableEq

/-- The feature pushed for a row (`features.push({...})` in the source);
`featuresLen` is `features.length` at push time (used by the id
fallback). -/
def mkFeature (row : Row) (coords : ℚ × ℚ) (featuresLen : ℕ)
    (hit : Option (Candidate × String × ℕ × String)) : Feature :=
  { coordinates := coords
    id := jsOr (asText row.num) ("row-" ++ toString (featuresLen + 1))
    name := asText row.nameDesc
    address := asText row.shortmarketStreet
    erfNo := asText row.erfNo
    erfSize := asText row.erfSize
    estValue := asText row.estValue
    zoning := asText (jsOr row.cmaZoning row.zoningCol)
    usage := asText row.cmaUsage
    owner := asText (jsOr row.cmaOwner row.ownerCol)
    significance := asText row.significanceCol
    cmaGps := asText row.cmaGps
    cmaMunicipalValue2023 := asText row.cmaMunicipalValue2023
    cmaRatesEstimate := asText row.cmaRatesEst
    heritage := hit.map (fun h => h.1.properties)
    heritageMatchMethod := hit.map (fun h => h.2.1)
    heritageMatchScore := hit.map (fun h => h.2.2.1)
    heritageMatchConfidence := hit.map (fun h => h.2.2.2)
    hasCBDHeritageMatch := hit.isSome }

/-- The accumulator of the row loop: the emitted features, the skipped
counter and the matched counter. -/
structure LoopState where
  features : List Feature
  skipped : ℕ
  matchedCBD : ℕ
deriving DecidableEq

/-- One iteration of `for (const row of rows)`: skip-and-count on GPS
failure, otherwise project, enrich and push a feature.  The projection
`proj` abstracts `projectLonLatTo3857`. -/
def rowStep (proj : ℚ × ℚ → Pt) (cbdIndex : List Candidate) (st : LoopState) (row : Row) :
    LoopState :=
  match parseGps row.cmaGps with
  | none => { st with skipped := st.skipped + 1 }
  | some coords =>
    let point3857 := proj coords
    let hit := enrich cbdIndex point3857 (asText row.shortmarketStreet) (asText row.nameDesc)
    { features := st.features ++ [mkFeature row coords st.features.length hit]
      skipped := st.skipped
      matchedCBD := st.matchedCBD + if hit.isSome then 1 else 0 }

/-- The whole row loop, from the empty accumulator. -/
def buildFeatures (proj : ℚ × ℚ → Pt) (cbdIndex : List Candidate) (rows : List Row) :
    LoopState :=
  rows.foldl (rowStep proj cbdIndex) ⟨[], 0, 0⟩

/-- The output snapshot document (`const geojson = {...}`); `generatedAt`
is the `new Date().toISOString()` value, taken as an input of the
embedding. -/
structure Snapshot where
  generatedAt : String
  sourceWorkbook : String
  sourceCBDGeoJSON : Option String
  totalRows : ℕ
  skippedRows : ℕ
  matchedCBDHeritageRows : ℕ
  features : List Feature
deriving DecidableEq

/-- Snapshot assembly from the loop results and the run metadata. -/
def buildSnapshot (generatedAt sourceWorkbook : String) (sourceCBDGeoJSON : Option String)
    (proj : ℚ × ℚ → Pt) (cbdIndex : List Candidate) (rows : List Row) : Snapshot :=
  let st := buildFeatures proj cbdIndex rows
  { generatedAt := generatedAt
    sourceWorkbook := sourceWorkbook
    sourceCBDGeoJSON := sourceCBDGeoJSON
    totalRows := rows.length
    skippedRows := st.skipped
    matchedCBDHeritageRows := st.matchedCBD
    features := st.features }

def longStCandidate : Candidate :=
  { bbox := computeBBox []
    polygons := []
    addressNorm := "121 long street"
    siteNameNorm := ""
    properties := {} }

example : matchScore "121 Long St" "" longStCandidate = 11 := by decide
example : bestFuzzy [longStCandidate] "121 Long St" "" = (some longStCandidate, 11) := by decide

/-! ## Helper lemmas -/

theorem EPSILON_ne_zero : EPSILON ≠ 0 := by
  norm_num [EPSILON]

theorem edgeDenom_ne_zero (yi yj : ℚ) : edgeDenom yi yj ≠ 0 := by
  unfold edgeDenom
  split
  · exact EPSILON_ne_zero
  · exact fun h => (by assumption : ¬ yj - yi = 0) h

theorem edgeCrosses_horizontal {p vi vj : Pt} (h : vi.2 = vj.2) :
    edgeCrosses p vi vj = false := by
  simp [edgeCrosses, h]

/-! ## Claim theorems -/

/-- Claim C4: a polygon (exterior ring plus hole rings) contains a point
exactly when the exterior ring contains it and no hole ring contains it —
in particular a point inside the exterior ring that also lies inside a hole
is not contained — and a multi-polygon candidate matches a point exactly
when at least one of its constituent polygons contains it. -/
theorem polygon_holes_and_multipolygon_rule :
    (∀ p : Pt, polygonContainsPoint [] p = false) ∧
    (∀ (outer : GeoRing) (holes : List GeoRing) (p : Pt),
        polygonContainsPoint (outer :: holes) p = true ↔
          ringContainsPoint outer p = true ∧
            ∀ h ∈ holes, ¬ ringContainsPoint h p = true) ∧
    (∀ (polygons : List GeoPolygon) (p : Pt),
        candidateContains polygons p = true ↔
          ∃ poly ∈ polygons, polygonContainsPoint poly p = true) := by
  refine ⟨fun _ => rfl, fun outer holes p => ?_, fun polygons p => ?_⟩
  · simp [polygonContainsPoint, List.all_eq_true]
  · simp [candidateContains, List.any_eq_true]

/-- Claim C6: the ray-casting edge test never divides by zero — the
denominator is `Number.EPSILON` instead of `0` for horizontal edges — and a
horizontal edge can never flip the parity, because its two endpoints lie on
the same side of the horizontal ray. -/
theorem ray_casting_total_no_div_by_zero :
    (∀ yi yj : ℚ, edgeDenom yi yj ≠ 0) ∧
    (∀ (p vi vj : Pt) (inside : Bool), vi.2 = vj.2 →
        edgeCrosses p vi vj = false ∧ ringStep p inside (vi, vj) = inside) := by
  refine ⟨edgeDenom_ne_zero, fun p vi vj inside h => ?_⟩
  have hc := edgeCrosses_horizontal (p := p) h
  exact ⟨hc, by simp [ringStep, hc]⟩

theorem ray_casting_total_no_div_by_zero_witness :
    edgeDenom 3 3 ≠ 0 ∧ edgeCrosses (0, 0) (1, 2) (5, 2) = false := by
  exact ⟨ray_casting_total_no_div_by_zero.1 3 3,
    (ray_casting_total_no_div_by_zero.2 (0, 0) (1, 2) (5, 2) true rfl).1⟩

/-- Claim C9: two runs on identical rows and identical candidate data
produce identical snapshots up to the generation timestamp: every other
field (including the feature list, in order) is equal, and overwriting the
timestamp makes the snapshots equal. -/
theorem snapshot_deterministic_modulo_timestamp
    (now1 now2 workbook : String) (cbdName : Option String)
    (proj : ℚ × ℚ → Pt) (cbdIndex : List Candidate) (rows : List Row) :
    (buildSnapshot now1 workbook cbdName proj cbdIndex rows).features
        = (buildSnapshot now2 workbook cbdName proj cbdIndex rows).features ∧
    (buildSnapshot now1 workbook cbdName proj cbdIndex rows).totalRows
        = (buildSnapshot now2 workbook cbdName proj cbdIndex rows).totalRows ∧
    (buildSnapshot now1 workbook cbdName proj cbdIndex rows).skippedRows
        = (buildSnapshot now2 workbook cbdName proj cbdIndex rows).skippedRows ∧
    (buildSnapshot now1 workbook cbdName proj cbdIndex rows).matchedCBDHeritageRows
        = (buildSnapshot now2 workbook cbdName proj cbdIndex rows).matchedCBDHeritageRows ∧
    (buildSnapshot now1 workbook cbdName proj cbdIndex rows).sourceWorkbook
        = (buildSnapshot now2 workbook cbdName proj cbdIndex rows).sourceWorkbook ∧
    (buildSnapshot now1 workbook cbdName proj cbdIndex rows).sourceCBDGeoJSON
        = (buildSnapshot now2 workbook cbdName proj cbdIndex rows).sourceCBDGeoJSON ∧
    { buildSnapshot now1 workbook cbdName proj cbdIndex rows with generatedAt := now2 }
        = buildSnapshot now2 workbook cbdName proj cbdIndex rows := by
  exact ⟨rfl, rfl, rfl, rfl, rfl, rfl, rfl⟩

/-- The number of emitted features whose match flag is set. -/
def featureFlagCount (fs : List Feature) : ℕ :=
  (fs.filter (fun f => f.hasCBDHeritageMatch)).length

theorem rowStep_parse_none {proj : ℚ × ℚ → Pt} {cbdIndex : List Candidate}
    {st : LoopState} {row : Row} (h : parseGps row.cmaGps = none) :
    rowStep proj cbdIndex st row = { st with skipped := st.skipped + 1 } := by
  simp [rowStep, h]

theorem rowStep_parse_some {proj : ℚ × ℚ → Pt} {cbdIndex : List Candidate}
    {st : LoopState} {row : Row} {coords : ℚ × ℚ}
    (h : parseGps row.cmaGps = some coords) :
    rowStep proj cbdIndex st row =
      { features := st.features ++ [mkFeature row coords st.features.length
          (enrich cbdIndex (proj coords) (asText row.shortmarketStreet) (asText row.nameDesc))]
        skipped := st.skipped
        matchedCBD := st.matchedCBD +
          if (enrich cbdIndex (proj coords)
              (asText row.shortmarketStreet) (asText row.nameDesc)).isSome then 1 else 0 } := by
  simp [rowStep, h]

theorem loop_counts_invariant (proj : ℚ × ℚ → Pt) (cbdIndex : List Candidate) :
    ∀ (rows : List Row) (acc : LoopState),
      (rows.foldl (rowStep proj cbdIndex) acc).skipped
          + (rows.foldl (rowStep proj cbdIndex) acc).features.length
        = acc.skipped + acc.features.length + rows.length ∧
      (rows.foldl (rowStep proj cbdIndex) acc).matchedCBD + featureFlagCount acc.features
        = acc.matchedCBD + featureFlagCount (rows.foldl (rowStep proj cbdIndex) acc).features := by
  intro rows
  induction rows with
  | nil => intro acc; simp
  | cons row rest ih =>
    intro acc
    rw [List.foldl_cons]
    have hrec := ih (rowStep proj cbdIndex acc row)
    rcases hparse : parseGps row.cmaGps with _ | coords
    · rw [rowStep_parse_none hparse] at hrec ⊢
      dsimp only at hrec ⊢
      simp only [List.length_cons]
      omega
    · rw [rowStep_parse_some hparse] at hrec ⊢
      have hproj : ∀ E, (mkFeature row coords acc.features.length E).hasCBDHeritageMatch
          = E.isSome := fun _ => rfl
      rcases henr : enrich cbdIndex (proj coords) (asText row.shortmarketStreet)
          (asText row.nameDesc) with _ | hit <;>
        simp only [Option.isSome_none, Option.isSome_some, featureFlagCount,
          List.filter_append, List.filter_cons, List.filter_nil, List.length_append,
          hproj, henr, Bool.false_eq_true, if_true, if_false, List.length_cons,
          List.length_nil] at hrec ⊢ <;> omega

/-- Claim C10: the snapshot count metadata is consistent with the emitted
features — `totalRows` equals `skippedRows` plus the number of features
(every row is either skipped or emitted, never both or neither), and
`matchedCBDHeritageRows` equals the number of emitted features whose
`hasCBDHeritageMatch` flag is true. -/
theorem snapshot_counts_consistent (generatedAt workbook : String) (cbdName : Option String)
    (proj : ℚ × ℚ → Pt) (cbdIndex : List Candidate) (rows : List Row) :
    (buildSnapshot generatedAt workbook cbdName proj cbdIndex rows).totalRows
      = (buildSnapshot generatedAt workbook cbdName proj cbdIndex rows).skippedRows
        + (buildSnapshot generatedAt workbook cbdName proj cbdIndex rows).features.length ∧
    (buildSnapshot generatedAt workbook cbdName proj cbdIndex rows).matchedCBDHeritageRows
      = ((buildSnapshot generatedAt workbook cbdName proj cbdIndex rows).features.filter
          (fun f => f.hasCBDHeritageMatch)).length := by
  have h := loop_counts_invariant proj cbdIndex rows ⟨[], 0, 0⟩
  simp only [featureFlagCount, List.filter_nil, List.length_nil, Nat.add_zero,
    Nat.zero_add] at h
  constructor
  · simpa [buildSnapshot, buildFeatures] using h.1.symm
  · simpa [buildSnapshot, buildFeatures, featureFlagCount] using h.2

theorem c2_hemi_order_counterexample :
    parseGps "18.42 E, 33.91 S" ≠ parseGps "33.91 S, 18.42 E" := by
  rw [parseGps_hemi_ex1, parseGps_hemi_ex2]
  intro h
  rw [Option.some.injEq, Prod.mk.injEq] at h
  have h1 := h.1
  norm_num at h1

/-- Claim C2 (amended): hemisphere letters set only the sign of a
coordinate — they never reorder the axes.  `parseCoord` ignores its axis
slot whenever a hemisphere letter is present, so `parseGps` still binds the
first half to longitude and the second to latitude (subject only to the
magnitude swap heuristic); in particular `"18.42 E, 33.91 S"` parses to
`(18.42, -33.91)` while `"33.91 S, 18.42 E"` parses to the swapped pair
`(-33.91, 18.42)`. -/
theorem hemisphere_sets_sign_not_axis_order :
    (∀ (v : String) (neg : Bool) (rest : List Char),
        findNumberStart (jsTrim v.toList) = some (neg, rest) →
        (parseNumberAndHemi neg rest).2.isSome = true →
        parseCoord v GpsSlot.lon = parseCoord v GpsSlot.lat) ∧
    parseGps "18.42 E, 33.91 S" = some (18.42, -33.91) ∧
    parseGps "33.91 S, 18.42 E" = some (-33.91, 18.42) := by
  refine ⟨fun v neg rest hf hs => ?_, parseGps_hemi_ex1, parseGps_hemi_ex2⟩
  by_cases hv : v = ""
  · simp [parseCoord, hv]
  · obtain ⟨h, hh⟩ := Option.isSome_iff_exists.mp hs
    simp only [String.toList] at hf
    simp [parseCoord, hv, hf, hh]

theorem hemisphere_sets_sign_not_axis_order_witness :
    parseCoord "33.91 S" GpsSlot.lon = parseCoord "33.91 S" GpsSlot.lat := by
  exact hemisphere_sets_sign_not_axis_order.1 "33.91 S" false ("33.91 S").toList
    (by decide) (by decide)

theorem c3_swap_example_counterexample :
    parseGps "-33.9189, 18.4233" ≠ some (18.4233, -33.9189) := by
  rw [parseGps_noswap_ex]
  intro h
  rw [Option.some.injEq, Prod.mk.injEq] at h
  have h1 := h.1
  norm_num at h1

/-- Claim C3 (amended): the axis swap fires exactly when the first parsed
component's magnitude is ≤ 90 and the second's magnitude is > 90.  On
`"-33.9189, 18.4233"` the swap does not fire (the second magnitude is
≤ 90): the bare second half is forced negative by the southern-hemisphere
default, giving `(-33.9189, -18.4233)`. -/
theorem magnitude_swap_rule :
    parseGps "-33.9189, 18.4233" = some (-33.9189, -18.4233) ∧
    ∀ (s : String) (p0 p1 : List Char) (restParts : List (List Char)) (a b : ℚ),
      s ≠ "" →
      gpsParts s = p0 :: p1 :: restParts →
      parseCoord (String.mk p0) GpsSlot.lon = some a →
      parseCoord (String.mk p1) GpsSlot.lat = some b →
      ((|a| ≤ 90 ∧ 90 < |b|) →
          parseGps s = if 180 < |b| then none else some (b, a)) ∧
      (¬ (|a| ≤ 90 ∧ 90 < |b|) →
          parseGps s = if 90 < |b| ∨ 180 < |a| then none else some (a, b)) := by
  refine ⟨parseGps_noswap_ex, fun s p0 p1 restParts a b hs hparts hp0 hp1 => ?_⟩
  simp only [parseGps, if_neg hs, hparts, hp0, hp1, jsAbs_eq_abs]
  constructor
  · intro hcond
    simp only [if_pos hcond]
    by_cases hb : 180 < |b|
    · rw [if_pos hb, if_pos (Or.inr hb)]
    · rw [if_neg hb, if_neg (not_or.mpr ⟨not_lt.mpr hcond.1, hb⟩)]
  · intro hcond
    simp only [if_neg hcond]

theorem magnitude_swap_rule_witness : parseGps "10, 100" = some (-100, 10) := by
  have hparts : gpsParts "10, 100" = ("10").toList :: ("100").toList :: [] := by decide
  have hc1 : parseCoord (String.mk ("10").toList) GpsSlot.lon = some 10 := by
    norm_num +decide [parseCoord, jsTrim, jsIsSpace, jsAbs, findNumberStart,
      parseNumberAndHemi, digitsToNat, digitVal]
  have hc2 : parseCoord (String.mk ("100").toList) GpsSlot.lat = some (-100) := by
    norm_num +decide [parseCoord, jsTrim, jsIsSpace, jsAbs, findNumberStart,
      parseNumberAndHemi, digitsToNat, digitVal]
  have hcond : |(10 : ℚ)| ≤ 90 ∧ 90 < |(-100 : ℚ)| := by
    rw [abs_of_nonneg (by norm_num), abs_of_nonpos (by norm_num)]
    norm_num
  have h := (magnitude_swap_rule.2 "10, 100" ("10").toList ("100").toList [] 10 (-100)
    (by decide) hparts hc1 hc2).1 hcond
  rw [abs_of_nonpos (by norm_num)] at h
  rw [if_neg (by norm_num)] at h
  exact h

theorem find?_first_characterization {α : Type} (p : α → Bool) :
    ∀ {l : List α} {a : α}, l.find? p = some a →
      p a = true ∧ ∃ pre post, l = pre ++ a :: post ∧ ∀ x ∈ pre, p x = false := by
  intro l
  induction l with
  | nil => intro a h; simp at h
  | cons b t ih =>
    intro a h
    by_cases hb : p b = true
    · rw [List.find?_cons_of_pos _ hb, Option.some.injEq] at h
      subst h
      exact ⟨hb, [], t, rfl, by simp⟩
    · have hb' : p b = false := Bool.eq_false_iff.mpr hb
      rw [List.find?_cons_of_neg _ hb] at h
      obtain ⟨hpa, pre, post, ht, hpre⟩ := ih h
      refine ⟨hpa, b :: pre, post, by rw [ht]; rfl, ?_⟩
      intro x hx
      rcases List.mem_cons.mp hx with rfl | hx2
      · exact hb'
      · exact hpre x hx2

theorem bestFuzzy_fst_none_eq_zero (cbdIndex : List Candidate) (sourceAddress sourceName : String) :
    (bestFuzzy cbdIndex sourceAddress sourceName).1 = none →
      (bestFuzzy cbdIndex sourceAddress sourceName).2 = 0 := by
  suffices aux : ∀ (l : List Candidate) (acc : Option Candidate × ℕ),
      (acc.1 = none → acc.2 = 0) →
      ((l.foldl (fun acc c =>
          let score := matchScore sourceAddress sourceName c
          if acc.2 < score then (some c, score) else acc) acc).1 = none →
        (l.foldl (fun acc c =>
          let score := matchScore sourceAddress sourceName c
          if acc.2 < score then (some c, score) else acc) acc).2 = 0) by
    exact aux cbdIndex (none, 0) (fun _ => rfl)
  intro l
  induction l with
  | nil => intro acc h; exact h
  | cons c t ih =>
    intro acc hacc
    rw [List.foldl_cons]
    apply ih
    dsimp only
    split
    · intro h; simp at h
    · exact hacc

def squareRingNeg : GeoRing := [(0, 0), (4, 0), (4, -4), (0, -4)]

def spatialCandidate : Candidate :=
  { bbox := computeBBox [[squareRingNeg]]
    polygons := [[squareRingNeg]]
    addressNorm := ""
    siteNameNorm := ""
    properties := {} }

def spatialRow : Row := { cmaGps := "1, 2" }

theorem ringContainsPoint_squareNeg : ringContainsPoint squareRingNeg (1, -2) = true := by
  norm_num +decide [ringContainsPoint, ringEdges, squareRingNeg, ringStep,
    edgeCrosses, edgeDenom, EPSILON]

theorem pointInBBox_squareNeg : pointInBBox (1, -2) (computeBBox [[squareRingNeg]]) = true := by
  norm_num +decide [pointInBBox, computeBBox, bboxStep, squareRingNeg]

theorem enrich_spatial_ex :
    enrich [spatialCandidate] (1, -2) "" "" =
      some (spatialCandidate, "spatial-3857", 100, "high") := by
  have hc : candidateContains spatialCandidate.polygons (1, -2) = true := by
    simp [candidateContains, spatialCandidate, polygonContainsPoint, ringContainsPoint_squareNeg]
  have hb : pointInBBox (1, -2) spatialCandidate.bbox = true := by
    simpa [spatialCandidate] using pointInBBox_squareNeg
  simp [enrich, findSpatial, List.find?_cons, hb, hc]

theorem c1_spatial_method_counterexample :
    pointInBBox (1, -2) spatialCandidate.bbox = true ∧
    candidateContains spatialCandidate.polygons (1, -2) = true ∧
    parseGps spatialRow.cmaGps = some (1, -2) ∧
    (buildFeatures (fun q => q) [spatialCandidate] [spatialRow]).features.map
        (fun f => f.heritageMatchMethod) = [some "spatial-3857"] ∧
    ¬ (buildFeatures (fun q => q) [spatialCandidate] [spatialRow]).features.map
        (fun f => f.heritageMatchMethod) = [some "exact-spatial"] := by
  have hb : pointInBBox (1, -2) spatialCandidate.bbox = true := by
    simpa [spatialCandidate] using pointInBBox_squareNeg
  have hc : candidateContains spatialCandidate.polygons (1, -2) = true := by
    simp [candidateContains, spatialCandidate, polygonContainsPoint, ringContainsPoint_squareNeg]
  have hgps : parseGps spatialRow.cmaGps = some (1, -2) := parseGps_simple_ex
  have ha : asText spatialRow.shortmarketStreet = "" := by decide
  have hn : asText spatialRow.nameDesc = "" := by decide
  have hbuild : (buildFeatures (fun q => q) [spatialCandidate] [spatialRow]).features.map
      (fun f => f.heritageMatchMethod) = [some "spatial-3857"] := by
    simp [buildFeatures, rowStep, hgps, ha, hn, enrich_spatial_ex, mkFeature]
  refine ⟨hb, hc, hgps, hbuild, ?_⟩
  rw [hbuild]
  simp

/-- Claim C1 (amended: the spatial match method tag the code writes is
`"spatial-3857"`, not `"exact-spatial"`): for every source row whose GPS
string parses, the orchestrator produces exactly one terminal outcome, in
priority order — if some candidate's bounding box contains the projected
point and one of its polygons contains the point, the first such candidate
wins and the row is tagged method `"spatial-3857"`, confidence `"high"`,
score 100; otherwise if the best fuzzy score is ≥ 8 the row is tagged
`"address-fuzzy"` with confidence `"medium"`; otherwise if it is ≥ 6,
`"address-fuzzy-low"` with confidence `"low"`; otherwise the row's three
match-provenance fields are null. -/
theorem orchestrator_outcome_tiers (proj : ℚ × ℚ → Pt) (cbdIndex : List Candidate)
    (row : Row) (coords : ℚ × ℚ) (st : LoopState)
    (hparse : parseGps row.cmaGps = some coords) :
    rowStep proj cbdIndex st row =
      { features := st.features ++ [mkFeature row coords st.features.length
          (enrich cbdIndex (proj coords) (asText row.shortmarketStreet) (asText row.nameDesc))]
        skipped := st.skipped
        matchedCBD := st.matchedCBD + if (enrich cbdIndex (proj coords)
            (asText row.shortmarketStreet) (asText row.nameDesc)).isSome then 1 else 0 } ∧
    (∀ c, findSpatial cbdIndex (proj coords) = some c →
        (pointInBBox (proj coords) c.bbox && candidateContains c.polygons (proj coords)) = true ∧
        (∃ pre post, cbdIndex = pre ++ c :: post ∧ ∀ c2 ∈ pre,
            (pointInBBox (proj coords) c2.bbox &&
              candidateContains c2.polygons (proj coords)) = false) ∧
        enrich cbdIndex (proj coords) (asText row.shortmarketStreet) (asText row.nameDesc)
          = some (c, "spatial-3857", 100, "high") ∧
        (mkFeature row coords st.features.length
            (enrich cbdIndex (proj coords) (asText row.shortmarketStreet)
              (asText row.nameDesc))).heritageMatchMethod = some "spatial-3857" ∧
        (mkFeature row coords st.features.length
            (enrich cbdIndex (proj coords) (asText row.shortmarketStreet)
              (asText row.nameDesc))).heritageMatchScore = some 100 ∧
        (mkFeature row coords st.features.length
            (enrich cbdIndex (proj coords) (asText row.shortmarketStreet)
              (asText row.nameDesc))).heritageMatchConfidence = some "high") ∧
    (findSpatial cbdIndex (proj coords) = none →
        (8 ≤ (bestFuzzy cbdIndex (asText row.shortmarketStreet) (asText row.nameDesc)).2 →
            ∃ c, (bestFuzzy cbdIndex (asText row.shortmarketStreet) (asText row.nameDesc)).1
                = some c ∧
              enrich cbdIndex (proj coords) (asText row.shortmarketStreet) (asText row.nameDesc)
                = some (c, "address-fuzzy",
                    (bestFuzzy cbdIndex (asText row.shortmarketStreet)
                      (asText row.nameDesc)).2, "medium") ∧
              (mkFeature row coords st.features.length
                  (enrich cbdIndex (proj coords) (asText row.shortmarketStreet)
                    (asText row.nameDesc))).heritageMatchMethod = some "address-fuzzy" ∧
              (mkFeature row coords st.features.length
                  (enrich cbdIndex (proj coords) (asText row.shortmarketStreet)
                    (asText row.nameDesc))).heritageMatchConfidence = some "medium") ∧
        ((bestFuzzy cbdIndex (asText row.shortmarketStreet) (asText row.nameDesc)).2 < 8 →
          6 ≤ (bestFuzzy cbdIndex (asText row.shortmarketStreet) (asText row.nameDesc)).2 →
            ∃ c, (bestFuzzy cbdIndex (asText row.shortmarketStreet) (asText row.nameDesc)).1
                = some c ∧
              enrich cbdIndex (proj coords) (asText row.shortmarketStreet) (asText row.nameDesc)
                = some (c, "address-fuzzy-low",
                    (bestFuzzy cbdIndex (asText row.shortmarketStreet)
                      (asText row.nameDesc)).2, "low") ∧
              (mkFeature row coords st.features.length
                  (enrich cbdIndex (proj coords) (asText row.shortmarketStreet)
                    (asText row.nameDesc))).heritageMatchMethod = some "address-fuzzy-low" ∧
              (mkFeature row coords st.features.length
                  (enrich cbdIndex (proj coords) (asText row.shortmarketStreet)
                    (asText row.nameDesc))).heritageMatchConfidence = some "low") ∧
        ((bestFuzzy cbdIndex (asText row.shortmarketStreet) (asText row.nameDesc)).2 < 6 →
            enrich cbdIndex (proj coords) (asText row.shortmarketStreet) (asText row.nameDesc)
              = none ∧
            (mkFeature row coords st.features.length
                (enrich cbdIndex (proj coords) (asText row.shortmarketStreet)
                  (asText row.nameDesc))).heritageMatchMethod = none ∧
            (mkFeature row coords st.features.length
                (enrich cbdIndex (proj coords) (asText row.shortmarketStreet)
                  (asText row.nameDesc))).heritageMatchScore = none ∧
            (mkFeature row coords st.features.length
                (enrich cbdIndex (proj coords) (asText row.shortmarketStreet)
                  (asText row.nameDesc))).heritageMatchConfidence = none)) := by
  refine ⟨rowStep_parse_some hparse, fun c hfs => ?_, fun hns => ?_⟩
  · have hfs2 := hfs
    unfold findSpatial at hfs2
    have hchar := find?_first_characterization _ hfs2
    have henr : enrich cbdIndex (proj coords) (asText row.shortmarketStreet)
        (asText row.nameDesc) = some (c, "spatial-3857", 100, "high") := by
      unfold enrich
      rw [hfs]
    exact ⟨hchar.1, hchar.2, henr, by rw [henr]; rfl, by rw [henr]; rfl, by rw [henr]; rfl⟩
  · rcases hbf : bestFuzzy cbdIndex (asText row.shortmarketStreet) (asText row.nameDesc)
      with ⟨bc, bs⟩
    rcases bc with _ | c
    · have h0 : bs = 0 := by
        have h1 := bestFuzzy_fst_none_eq_zero cbdIndex (asText row.shortmarketStreet)
          (asText row.nameDesc) (by rw [hbf])
        rw [hbf] at h1
        exact h1
      have henr : enrich cbdIndex (proj coords) (asText row.shortmarketStreet)
          (asText row.nameDesc) = none := by
        unfold enrich
        rw [hns, hbf]
      subst h0
      dsimp only
      exact ⟨fun h8 => absurd h8 (by omega), fun _ h6 => absurd h6 (by omega),
        fun _ => ⟨henr, by rw [henr]; rfl, by rw [henr]; rfl, by rw [henr]; rfl⟩⟩
    · dsimp only
      refine ⟨fun h8 => ?_, fun hl8 h6 => ?_, fun hl6 => ?_⟩
      · have henr : enrich cbdIndex (proj coords) (asText row.shortmarketStreet)
            (asText row.nameDesc) = some (c, "address-fuzzy", bs, "medium") := by
          unfold enrich
          rw [hns, hbf]
          dsimp only
          rw [if_pos (by simpa [ADDRESS_MATCH_THRESHOLD] using h8)]
        exact ⟨c, rfl, henr, by rw [henr]; rfl, by rw [henr]; rfl⟩
      · have henr : enrich cbdIndex (proj coords) (asText row.shortmarketStreet)
            (asText row.nameDesc) = some (c, "address-fuzzy-low", bs, "low") := by
          unfold enrich
          rw [hns, hbf]
          dsimp only
          rw [if_neg (by simpa [ADDRESS_MATCH_THRESHOLD] using (by omega : ¬ 8 ≤ bs)),
            if_pos (by simpa [ADDRESS_MATCH_LOW_THRESHOLD] using h6)]
        exact ⟨c, rfl, henr, by rw [henr]; rfl, by rw [henr]; rfl⟩
      · have henr : enrich cbdIndex (proj coords) (asText row.shortmarketStreet)
            (asText row.nameDesc) = none := by
          unfold enrich
          rw [hns, hbf]
          dsimp only
          rw [if_neg (by simpa [ADDRESS_MATCH_THRESHOLD] using (by omega : ¬ 8 ≤ bs)),
            if_neg (by simpa [ADDRESS_MATCH_LOW_THRESHOLD] using (by omega : ¬ 6 ≤ bs))]
        exact ⟨henr, by rw [henr]; rfl, by rw [henr]; rfl, by rw [henr]; rfl⟩

theorem orchestrator_outcome_tiers_witness :
    enrich [] ((1 : ℚ), (-2 : ℚ)) (asText spatialRow.shortmarketStreet)
        (asText spatialRow.nameDesc) = none ∧
    (mkFeature spatialRow (1, -2) 0 (enrich [] ((1 : ℚ), (-2 : ℚ))
        (asText spatialRow.shortmarketStreet)
        (asText spatialRow.nameDesc))).heritageMatchMethod = none := by
  have h := orchestrator_outcome_tiers (fun q => q) [] spatialRow (1, -2) ⟨[], 0, 0⟩
    parseGps_simple_ex
  have h3 := (h.2.2 rfl).2.2 (by decide)
  exact ⟨h3.1, h3.2.1⟩

def longStRow : Row := { shortmarketStreet := "121 Long St", cmaGps := "1, 2" }

/-- Claim C7: the fuzzy score is the sum of three independent signals
(house-number equality +4, +1 per shared token of the union-of-(address,
name) token sets, substring containment +4); a source address
`"121 Long St"` against a candidate whose normalized address is
`"121 long street"` scores at least 10; and when no spatial match occurred
and the best fuzzy score is ≥ 8 the row's match method is
`"address-fuzzy"`. -/
theorem fuzzy_score_signals_and_example :
    (∀ (targetAddress targetName : String) (c : Candidate),
        matchScore targetAddress targetName c =
          houseNumberSignal targetAddress c
            + tokenOverlapSignal targetAddress targetName c
            + substringSignal targetAddress c) ∧
    (∀ (targetName : String) (c : Candidate), c.addressNorm = "121 long street" →
        10 ≤ matchScore "121 Long St" targetName c) ∧
    (∀ (proj : ℚ × ℚ → Pt) (cbdIndex : List Candidate) (row : Row) (coords : ℚ × ℚ) (k : ℕ),
        parseGps row.cmaGps = some coords →
        findSpatial cbdIndex (proj coords) = none →
        8 ≤ (bestFuzzy cbdIndex (asText row.shortmarketStreet) (asText row.nameDesc)).2 →
        (mkFeature row coords k (enrich cbdIndex (proj coords)
            (asText row.shortmarketStreet) (asText row.nameDesc))).heritageMatchMethod
          = some "address-fuzzy") := by
  have hsum : ∀ (targetAddress targetName : String) (c : Candidate),
      matchScore targetAddress targetName c =
        houseNumberSignal targetAddress c
          + tokenOverlapSignal targetAddress targetName c
          + substringSignal targetAddress c := fun _ _ _ => rfl
  refine ⟨hsum, fun targetName c haddr => ?_, fun proj cbdIndex row coords k hp hns h8 => ?_⟩
  · rw [hsum]
    have hh : houseNumberSignal "121 Long St" c = 4 := by
      unfold houseNumberSignal
      rw [haddr]
      decide
    have hss : substringSignal "121 Long St" c = 4 := by
      unfold substringSignal
      rw [haddr]
      decide
    have hov : 3 ≤ tokenOverlapSignal "121 Long St" targetName c := by
      unfold tokenOverlapSignal
      rw [haddr]
      have htokA : tokens (normalizeAddress "121 Long St") = ["121", "long", "street"] := by
        decide
      have htokB : tokens "121 long street" = ["121", "long", "street"] := by decide
      rw [htokA, htokB]
      have hmem : ∀ x ∈ (["121", "long", "street"] : List String),
          x ∈ ((["121", "long", "street"] ++ tokens (normalizeAddress targetName)).dedup.filter
            (fun t => t ∈ ["121", "long", "street"] ++ tokens c.siteNameNorm)) := by
        intro x hx
        apply List.mem_filter.mpr
        refine ⟨List.mem_dedup.mpr (List.mem_append_left _ hx), ?_⟩
        exact decide_eq_true (List.mem_append_left _ hx)
      calc (3 : ℕ) = (["121", "long", "street"] : List String).toFinset.card := by decide
        _ ≤ ((["121", "long", "street"] ++ tokens (normalizeAddress targetName)).dedup.filter
              (fun t => t ∈ ["121", "long", "street"] ++ tokens c.siteNameNorm)).toFinset.card := by
            apply Finset.card_le_card
            intro x hx
            rw [List.mem_toFinset] at hx ⊢
            exact hmem x hx
        _ ≤ _ := List.toFinset_card_le _
    omega
  · rcases hbc : (bestFuzzy cbdIndex (asText row.shortmarketStreet) (asText row.nameDesc)).1
      with _ | c
    · have h0 := bestFuzzy_fst_none_eq_zero cbdIndex (asText row.shortmarketStreet)
        (asText row.nameDesc) hbc
      omega
    · have hpair : bestFuzzy cbdIndex (asText row.shortmarketStreet) (asText row.nameDesc)
          = (some c, (bestFuzzy cbdIndex (asText row.shortmarketStreet)
              (asText row.nameDesc)).2) := by
        rw [← hbc]
      have henr : enrich cbdIndex (proj coords) (asText row.shortmarketStreet)
          (asText row.nameDesc)
          = some (c, "address-fuzzy", (bestFuzzy cbdIndex (asText row.shortmarketStreet)
              (asText row.nameDesc)).2, "medium") := by
        unfold enrich
        rw [hns, hpair]
        dsimp only
        rw [if_pos (by simpa [ADDRESS_MATCH_THRESHOLD] using h8)]
      rw [henr]
      rfl

theorem fuzzy_score_signals_witness :
    10 ≤ matchScore "121 Long St" "" longStCandidate ∧
    (mkFeature longStRow (1, -2) 0 (enrich [longStCandidate] ((1 : ℚ), (-2 : ℚ))
        (asText longStRow.shortmarketStreet)
        (asText longStRow.nameDesc))).heritageMatchMethod = some "address-fuzzy" := by
  constructor
  · exact fuzzy_score_signals_and_example.2.1 "" longStCandidate rfl
  · exact fuzzy_score_signals_and_example.2.2 (fun q => q) [longStCandidate] longStRow
      (1, -2) 0 parseGps_simple_ex (by decide) (by decide)

def badRow : Row := { cmaGps := "x" }

/-- Claim C8: no per-row problem aborts the run — a row whose GPS fails to
parse is excluded from the features and bumps the skipped counter by one
(it is never emitted and never raises), and a row that parses but matches
no heritage candidate is still emitted as a feature whose three
match-provenance fields are null and whose match flag is false. -/
theorem per_row_error_absorption (proj : ℚ × ℚ → Pt) (cbdIndex : List Candidate)
    (st : LoopState) (row : Row) :
    (parseGps row.cmaGps = none →
        rowStep proj cbdIndex st row = { st with skipped := st.skipped + 1 } ∧
        (rowStep proj cbdIndex st row).features = st.features) ∧
    (∀ coords, parseGps row.cmaGps = some coords →
        enrich cbdIndex (proj coords) (asText row.shortmarketStreet)
            (asText row.nameDesc) = none →
        rowStep proj cbdIndex st row =
          { st with features := st.features ++ [mkFeature row coords st.features.length none] } ∧
        (mkFeature row coords st.features.length none).heritageMatchMethod = none ∧
        (mkFeature row coords st.features.length none).heritageMatchScore = none ∧
        (mkFeature row coords st.features.length none).heritageMatchConfidence = none ∧
        (mkFeature row coords st.features.length none).hasCBDHeritageMatch = false ∧
        (mkFeature row coords st.features.length none).coordinates = coords) := by
  constructor
  · intro h
    exact ⟨rowStep_parse_none h, by rw [rowStep_parse_none h]⟩
  · intro coords hp he
    have h1 := @rowStep_parse_some proj cbdIndex st row coords hp
    rw [he] at h1
    refine ⟨?_, rfl, rfl, rfl, rfl, rfl⟩
    rw [h1]
    simp

theorem per_row_error_absorption_witness :
    rowStep (fun q => q) [] ⟨[], 0, 0⟩ badRow = ⟨[], 1, 0⟩ ∧
    rowStep (fun q => q) [] ⟨[], 0, 0⟩ spatialRow =
      ⟨[mkFeature spatialRow (1, -2) 0 none], 0, 0⟩ ∧
    (mkFeature spatialRow (1, -2) 0 none).hasCBDHeritageMatch = false := by
  have hA := (per_row_error_absorption (fun q => q) [] ⟨[], 0, 0⟩ badRow).1 parseGps_bad_ex
  have hB := (per_row_error_absorption (fun q => q) [] ⟨[], 0, 0⟩ spatialRow).2 (1, -2)
    parseGps_simple_ex rfl
  exact ⟨hA.1, hB.1, hB.2.2.2.2.1⟩

/-! ## Geometry lemmas for the bounding-box prefilter -/

theorem straddle_points (p vi vj : Pt)
    (h : (decide (p.2 < vi.2) != decide (p.2 < vj.2)) = true) :
    vi.2 ≠ vj.2 ∧ (vi.2 ≤ p.2 ∨ vj.2 ≤ p.2) ∧ (p.2 < vi.2 ∨ p.2 < vj.2) := by
  cases h1 : decide (p.2 < vi.2) <;> cases h2 : decide (p.2 < vj.2) <;>
    rw [h1, h2] at h <;> simp at h
  · have hvi := of_decide_eq_false h1
    have hvj := of_decide_eq_true h2
    exact ⟨by intro he; rw [he] at hvi; exact hvi hvj,
      Or.inl (not_lt.mp hvi), Or.inr hvj⟩
  · have hvi := of_decide_eq_true h1
    have hvj := of_decide_eq_false h2
    exact ⟨by intro he; rw [he] at hvi; exact hvj hvi,
      Or.inr (not_lt.mp hvj), Or.inl hvi⟩

theorem straddle_xint_between (p vi vj : Pt)
    (h : (decide (p.2 < vi.2) != decide (p.2 < vj.2)) = true) :
    min vi.1 vj.1 ≤ (vj.1 - vi.1) * (p.2 - vi.2) / edgeDenom vi.2 vj.2 + vi.1 ∧
    (vj.1 - vi.1) * (p.2 - vi.2) / edgeDenom vi.2 vj.2 + vi.1 ≤ max vi.1 vj.1 := by
  obtain ⟨hne, hlow, hhigh⟩ := straddle_points p vi vj h
  have hd : edgeDenom vi.2 vj.2 = vj.2 - vi.2 := by
    unfold edgeDenom
    rw [if_neg (sub_ne_zero.mpr (Ne.symm hne))]
  rw [hd]
  have hmvi : min vi.1 vj.1 ≤ vi.1 := min_le_left _ _
  have hmvj : min vi.1 vj.1 ≤ vj.1 := min_le_right _ _
  have hviM : vi.1 ≤ max vi.1 vj.1 := le_max_left _ _
  have hvjM : vj.1 ≤ max vi.1 vj.1 := le_max_right _ _
  rcases hlow with hl | hl <;> rcases hhigh with hh | hh
  · exact absurd hh (not_lt.mpr hl)
  · -- vi.2 ≤ p.2 < vj.2 : positive denominator
    have hd0 : (0 : ℚ) < vj.2 - vi.2 := by linarith
    constructor
    · rw [← sub_le_iff_le_add, le_div_iff₀ hd0]
      nlinarith [mul_nonneg (by linarith : (0 : ℚ) ≤ vi.1 - min vi.1 vj.1)
          (by linarith : (0 : ℚ) ≤ (vj.2 - vi.2) - (p.2 - vi.2)),
        mul_nonneg (by linarith : (0 : ℚ) ≤ vj.1 - min vi.1 vj.1)
          (by linarith : (0 : ℚ) ≤ p.2 - vi.2)]
    · rw [← le_sub_iff_add_le, div_le_iff₀ hd0]
      nlinarith [mul_nonneg (by linarith : (0 : ℚ) ≤ max vi.1 vj.1 - vi.1)
          (by linarith : (0 : ℚ) ≤ (vj.2 - vi.2) - (p.2 - vi.2)),
        mul_nonneg (by linarith : (0 : ℚ) ≤ max vi.1 vj.1 - vj.1)
          (by linarith : (0 : ℚ) ≤ p.2 - vi.2)]
  · -- vj.2 ≤ p.2 < vi.2 : negative denominator
    have hd0 : vj.2 - vi.2 < 0 := by linarith
    constructor
    · rw [← sub_le_iff_le_add, le_div_iff_of_neg hd0]
      nlinarith [mul_nonneg (by linarith : (0 : ℚ) ≤ vi.1 - min vi.1 vj.1)
          (by linarith : (0 : ℚ) ≤ (p.2 - vi.2) - (vj.2 - vi.2)),
        mul_nonneg (by linarith : (0 : ℚ) ≤ vj.1 - min vi.1 vj.1)
          (by linarith : (0 : ℚ) ≤ vi.2 - p.2)]
    · rw [← le_sub_iff_add_le, div_le_iff_of_neg hd0]
      nlinarith [mul_nonneg (by linarith : (0 : ℚ) ≤ max vi.1 vj.1 - vi.1)
          (by linarith : (0 : ℚ) ≤ (p.2 - vi.2) - (vj.2 - vi.2)),
        mul_nonneg (by linarith : (0 : ℚ) ≤ max vi.1 vj.1 - vj.1)
          (by linarith : (0 : ℚ) ≤ vi.2 - p.2)]
  · exact absurd hh (not_lt.mpr hl)

theorem edgeCrosses_eq_straddle_of_left (p vi vj : Pt)
    (h1 : p.1 < vi.1) (h2 : p.1 < vj.1) :
    edgeCrosses p vi vj = (decide (p.2 < vi.2) != decide (p.2 < vj.2)) := by
  unfold edgeCrosses
  cases hs : (decide (p.2 < vi.2) != decide (p.2 < vj.2))
  · simp
  · have hb := (straddle_xint_between p vi vj hs).1
    have hx : p.1 < (vj.1 - vi.1) * (p.2 - vi.2) / edgeDenom vi.2 vj.2 + vi.1 :=
      lt_of_lt_of_le (lt_min h1 h2) hb
    simp [hx]

/-- The ray-casting loop body written against the y-straddle test alone
(used to analyse the parity when the ray's x-test is uniformly true). -/
def yStraddleStep (p : Pt) (acc : Bool) (e : Pt × Pt) : Bool :=
  if (decide (p.2 < e.1.2) != decide (p.2 < e.2.2)) then !acc else acc

theorem chain_xor_parity (p : Pt) :
    ∀ (l : List Pt) (c : Pt) (init : Bool),
      (l.zip (c :: l.dropLast)).foldl (yStraddleStep p) init
        = if (decide (p.2 < (l.getLastD c).2) != decide (p.2 < c.2)) then !init else init := by
  intro l
  induction l with
  | nil =>
    intro c init
    rw [List.getLastD_nil]
    simp
  | cons a t ih =>
    intro c init
    cases t with
    | nil =>
      rw [show ([a].zip (c :: [a].dropLast)) = [(a, c)] from rfl]
      rw [List.foldl_cons, List.foldl_nil]
      rw [show ([a].getLastD c) = a from rfl]
      rfl
    | cons a2 t2 =>
      rw [show ((a :: a2 :: t2).dropLast) = a :: (a2 :: t2).dropLast from rfl]
      rw [List.zip_cons_cons, List.foldl_cons]
      rw [ih a (yStraddleStep p init (a, c))]
      simp only [List.getLastD_cons]
      unfold yStraddleStep
      generalize decide (p.2 < (t2.getLastD a2).2) = x
      generalize hy : decide (p.2 < a.2) = y
      generalize hz : decide (p.2 < c.2) = z
      cases x <;> cases y <;> cases z <;> cases init <;> rfl

theorem foldl_ringStep_eq_init (p : Pt) :
    ∀ (l : List (Pt × Pt)) (init : Bool),
      (∀ e ∈ l, edgeCrosses p e.1 e.2 = false) → l.foldl (ringStep p) init = init := by
  intro l
  induction l with
  | nil => intro init _; rfl
  | cons e t ih =>
    intro init h
    rw [List.foldl_cons]
    have he := h e (List.mem_cons_self e t)
    rw [show ringStep p init e = init from by simp [ringStep, he]]
    exact ih init fun x hx => h x (List.mem_cons_of_mem e hx)

theorem getLastD_mem {α : Type} : ∀ (l : List α) (d : α), l.getLastD d ∈ d :: l := by
  intro l
  induction l with
  | nil => intro d; rw [List.getLastD_nil]; exact List.mem_cons_self d []
  | cons a t ih =>
    intro d
    rw [List.getLastD_cons]
    exact List.mem_cons_of_mem d (ih a)

theorem edge_mem_ring {ring : GeoRing} {e : Pt × Pt} (he : e ∈ ringEdges ring) :
    e.1 ∈ ring ∧ e.2 ∈ ring := by
  cases ring with
  | nil => simp [ringEdges] at he
  | cons v vs =>
    unfold ringEdges at he
    obtain ⟨e1, e2⟩ := e
    have hz := List.of_mem_zip he
    refine ⟨hz.1, ?_⟩
    rcases List.mem_cons.mp hz.2 with hh | hh
    · rw [hh]
      rcases List.mem_cons.mp (getLastD_mem (v :: vs) v) with h2 | h2
      · rw [h2]; exact List.mem_cons_self v vs
      · exact h2
    · exact List.dropLast_subset _ hh

theorem far_left_not_contained (ring : GeoRing) (p : Pt)
    (h : ∀ q ∈ ring, p.1 < q.1) : ringContainsPoint ring p = false := by
  cases ring with
  | nil => rfl
  | cons v vs =>
    unfold ringContainsPoint
    have hcong : ∀ (acc : Bool), ∀ e ∈ ringEdges (v :: vs),
        ringStep p acc e = yStraddleStep p acc e := by
      intro acc e he
      have hm := edge_mem_ring he
      unfold ringStep yStraddleStep
      rw [edgeCrosses_eq_straddle_of_left p e.1 e.2 (h e.1 hm.1) (h e.2 hm.2)]
    rw [List.foldl_ext (ringStep p) (yStraddleStep p) false hcong]
    unfold ringEdges
    rw [chain_xor_parity p (v :: vs) ((v :: vs).getLastD v) false]
    rw [show ((v :: vs).getLastD ((v :: vs).getLastD v)) = (v :: vs).getLastD v from by
      rw [List.getLastD_cons, List.getLastD_cons]]
    simp

theorem ringContains_exists_cross {ring : GeoRing} {p : Pt}
    (h : ringContainsPoint ring p = true) :
    ∃ e ∈ ringEdges ring, edgeCrosses p e.1 e.2 = true := by
  by_contra hc
  push_neg at hc
  have hall : ∀ e ∈ ringEdges ring, edgeCrosses p e.1 e.2 = false :=
    fun e he => Bool.eq_false_iff.mpr (hc e he)
  unfold ringContainsPoint at h
  rw [foldl_ringStep_eq_init p (ringEdges ring) false hall] at h
  exact absurd h (by simp)

theorem ringContains_exists_xle {ring : GeoRing} {p : Pt}
    (h : ringContainsPoint ring p = true) :
    ∃ q ∈ ring, q.1 ≤ p.1 := by
  by_contra hc
  push_neg at hc
  rw [far_left_not_contained ring p hc] at h
  exact absurd h (by simp)

theorem bbox_foldl_mono : ∀ (pts : List Pt) (acc : BBox),
    (pts.foldl bboxStep acc).minX ≤ acc.minX ∧ (pts.foldl bboxStep acc).minY ≤ acc.minY ∧
    acc.maxX ≤ (pts.foldl bboxStep acc).maxX ∧ acc.maxY ≤ (pts.foldl bboxStep acc).maxY := by
  intro pts
  induction pts with
  | nil => intro acc; exact ⟨le_refl _, le_refl _, le_refl _, le_refl _⟩
  | cons q t ih =>
    intro acc
    rw [List.foldl_cons]
    have h1 := ih (bboxStep acc q)
    have hstep : (bboxStep acc q).minX ≤ acc.minX ∧ (bboxStep acc q).minY ≤ acc.minY ∧
        acc.maxX ≤ (bboxStep acc q).maxX ∧ acc.maxY ≤ (bboxStep acc q).maxY := by
      unfold bboxStep
      refine ⟨?_, ?_, ?_, ?_⟩ <;> dsimp only <;> split <;>
        first
        | exact le_refl _
        | exact le_of_lt (by assumption)
    exact ⟨le_trans h1.1 hstep.1, le_trans h1.2.1 hstep.2.1,
      le_trans hstep.2.2.1 h1.2.2.1, le_trans hstep.2.2.2 h1.2.2.2⟩

theorem bbox_foldl_bounds : ∀ (pts : List Pt) (acc : BBox) (q : Pt), q ∈ pts →
    (pts.foldl bboxStep acc).minX ≤ (q.1 : WithTop ℚ) ∧
    (pts.foldl bboxStep acc).minY ≤ (q.2 : WithTop ℚ) ∧
    (q.1 : WithBot ℚ) ≤ (pts.foldl bboxStep acc).maxX ∧
    (q.2 : WithBot ℚ) ≤ (pts.foldl bboxStep acc).maxY := by
  intro pts
  induction pts with
  | nil => intro acc q hq; simp at hq
  | cons r t ih =>
    intro acc q hq
    rw [List.foldl_cons]
    rcases List.mem_cons.mp hq with rfl | hq2
    · have hmono := bbox_foldl_mono t (bboxStep acc q)
      have hstep : (bboxStep acc q).minX ≤ (q.1 : WithTop ℚ) ∧
          (bboxStep acc q).minY ≤ (q.2 : WithTop ℚ) ∧
          (q.1 : WithBot ℚ) ≤ (bboxStep acc q).maxX ∧
          (q.2 : WithBot ℚ) ≤ (bboxStep acc q).maxY := by
        unfold bboxStep
        refine ⟨?_, ?_, ?_, ?_⟩ <;> dsimp only <;> split <;>
          first
          | exact le_refl _
          | exact le_of_not_lt (by assumption)
      exact ⟨le_trans hmono.1 hstep.1, le_trans hmono.2.1 hstep.2.1,
        le_trans hstep.2.2.1 hmono.2.2.1, le_trans hstep.2.2.2 hmono.2.2.2⟩
    · exact ih (bboxStep acc r) q hq2

/-- Claim C5: the bounding-box prefilter never produces a false negative —
if a point is contained in some polygon of a candidate's geometry, then the
point lies inside `computeBBox` of that geometry. -/
theorem bbox_prefilter_no_false_negative (polygons : List GeoPolygon) (poly : GeoPolygon)
    (p : Pt) (hpoly : poly ∈ polygons) (hcontain : polygonContainsPoint poly p = true) :
    pointInBBox p (computeBBox polygons) = true := by
  rcases poly with _ | ⟨outer, holes⟩
  · exact absurd hcontain (by simp [polygonContainsPoint])
  · have houter : ringContainsPoint outer p = true := by
      unfold polygonContainsPoint at hcontain
      simp only [Bool.and_eq_true] at hcontain
      exact hcontain.1
    obtain ⟨e, hemem, hecross⟩ := ringContains_exists_cross houter
    obtain ⟨he1, he2⟩ := edge_mem_ring hemem
    have hparts : (decide (p.2 < e.1.2) != decide (p.2 < e.2.2)) = true ∧
        decide (p.1 < (e.2.1 - e.1.1) * (p.2 - e.1.2) / edgeDenom e.1.2 e.2.2 + e.1.1)
          = true := by
      unfold edgeCrosses at hecross
      simp only [Bool.and_eq_true] at hecross
      exact hecross
    have hstrad := hparts.1
    have hxlt := of_decide_eq_true hparts.2
    obtain ⟨hne, hylow, hyhigh⟩ := straddle_points p e.1 e.2 hstrad
    have hxup : p.1 < max e.1.1 e.2.1 :=
      lt_of_lt_of_le hxlt (straddle_xint_between p e.1 e.2 hstrad).2
    have hxwit : ∃ q ∈ outer, p.1 < q.1 := by
      rcases lt_max_iff.mp hxup with hcase | hcase
      · exact ⟨e.1, he1, hcase⟩
      · exact ⟨e.2, he2, hcase⟩
    have hylwit : ∃ q ∈ outer, q.2 ≤ p.2 := by
      rcases hylow with hcase | hcase
      · exact ⟨e.1, he1, hcase⟩
      · exact ⟨e.2, he2, hcase⟩
    have hyhwit : ∃ q ∈ outer, p.2 < q.2 := by
      rcases hyhigh with hcase | hcase
      · exact ⟨e.1, he1, hcase⟩
      · exact ⟨e.2, he2, hcase⟩
    obtain ⟨qxl, hqxlmem, hqxlle⟩ := ringContains_exists_xle houter
    have hmem : ∀ q ∈ outer, q ∈ polygons.flatten.flatten := by
      intro q hq
      apply List.mem_flatten.mpr
      refine ⟨outer, List.mem_flatten.mpr ⟨outer :: holes, hpoly, List.mem_cons_self _ _⟩, hq⟩
    have hbounds : ∀ q ∈ outer,
        (computeBBox polygons).minX ≤ (q.1 : WithTop ℚ) ∧
        (computeBBox polygons).minY ≤ (q.2 : WithTop ℚ) ∧
        (q.1 : WithBot ℚ) ≤ (computeBBox polygons).maxX ∧
        (q.2 : WithBot ℚ) ≤ (computeBBox polygons).maxY := by
      intro q hq
      exact bbox_foldl_bounds (polygons.flatten.flatten) ⟨⊤, ⊤, ⊥, ⊥⟩ q (hmem q hq)
    obtain ⟨qx, hqxmem, hqxgt⟩ := hxwit
    obtain ⟨qyl, hqylmem, hqylle⟩ := hylwit
    obtain ⟨qyh, hqyhmem, hqyhgt⟩ := hyhwit
    unfold pointInBBox
    simp only [Bool.and_eq_true, decide_eq_true_eq]
    refine ⟨⟨⟨?_, ?_⟩, ?_⟩, ?_⟩
    · exact le_trans (hbounds qxl hqxlmem).1 (WithTop.coe_le_coe.mpr hqxlle)
    · exact le_trans (WithBot.coe_le_coe.mpr (le_of_lt hqxgt)) (hbounds qx hqxmem).2.2.1
    · exact le_trans (hbounds qyl hqylmem).2.1 (WithTop.coe_le_coe.mpr hqylle)
    · exact le_trans (WithBot.coe_le_coe.mpr (le_of_lt hqyhgt)) (hbounds qyh hqyhmem).2.2.2

theorem bbox_prefilter_no_false_negative_witness :
    pointInBBox (1, -2) (computeBBox [[squareRingNeg]]) = true := by
  exact bbox_prefilter_no_false_negative [[squareRingNeg]] [squareRingNeg] (1, -2)
    (List.mem_cons_self _ _)
    (by simp [polygonContainsPoint, ringContainsPoint_squareNeg])

theorem polygon_holes_and_multipolygon_rule_witness :
    polygonContainsPoint [squareRingNeg] (1, -2) = true ∧
    candidateContains [[squareRingNeg]] (1, -2) = true := by
  have h1 := (polygon_holes_and_multipolygon_rule.2.1 squareRingNeg [] (1, -2)).mpr
    ⟨ringContainsPoint_squareNeg, by simp⟩
  have h2 := (polygon_holes_and_multipolygon_rule.2.2 [[squareRingNeg]] (1, -2)).mpr
    ⟨[squareRingNeg], List.mem_cons_self _ _, h1⟩
  exact ⟨h1, h2⟩

theorem snapshot_deterministic_modulo_timestamp_witness :
    (buildSnapshot "run1" "wb" none (fun q => q) [] [badRow]).features
      = (buildSnapshot "run2" "wb" none (fun q => q) [] [badRow]).features ∧
    { buildSnapshot "run1" "wb" none (fun q => q) [] [badRow] with generatedAt := "run2" }
      = buildSnapshot "run2" "wb" none (fun q => q) [] [badRow] := by
  have h := snapshot_deterministic_modulo_timestamp "run1" "run2" "wb" none
    (fun q => q) [] [badRow]
  exact ⟨h.1, h.2.2.2.2.2.2⟩

theorem snapshot_counts_consistent_witness :
    (buildSnapshot "t" "wb" none (fun q => q) [] [badRow, spatialRow]).totalRows
      = (buildSnapshot "t" "wb" none (fun q => q) [] [badRow, spatialRow]).skippedRows
        + (buildSnapshot "t" "wb" none (fun q => q) [] [badRow, spatialRow]).features.length ∧
    (buildSnapshot "t" "wb" none (fun q => q) [] [badRow, spatialRow]).matchedCBDHeritageRows
      = ((buildSnapshot "t" "wb" none (fun q => q) [] [badRow, spatialRow]).features.filter
          (fun f => f.hasCBDHeritageMatch)).length := by
  exact snapshot_counts_consistent "t" "wb" none (fun q => q) [] [badRow, spatialRow]
